import Mathlib

/-!
Verification of src/scripts/transform.mjs (SAS XML contract transformer).

The script reads one XML contract, performs literal text replacements
(readAndReplaceXML, lines 33-45), parses it with fast-xml-parser and
patches the parsed object (parseAndPatchXML, lines 52-88), serializes it
back (serializeXML, lines 95-105), generates a QR code (generateQRCode,
lines 111-129), renders an HTML report (buildHTML, lines 137-891), and
writes three artifacts (transform, lines 957-1004).

This file shallowly embeds those functions.  The third-party calls
(fast-xml-parser's parse, qrcode's toDataURL) are modeled as parameters /
outcome arguments; everything the script itself computes is translated
directly from the source.
-/

/-- Lines 12-19: the CONFIG object. -/
structure Config where
  QR_TARGET_URL : String
  QR_SIZE : Nat
  INPUT_FILE : String
  OUTPUT_XML : String
  OUTPUT_HTML : String
  OUTPUT_README : String
deriving DecidableEq

/-- Lines 12-19: the configuration constants of the script. -/
def CONFIG : Config :=
  { QR_TARGET_URL := "https://alt-site.example.com/contrato/585748"
    QR_SIZE := 200
    INPUT_FILE := "SAS-1.2-202303-585748.xml"
    OUTPUT_XML := "dist/contratoSocial.updated.xml"
    OUTPUT_HTML := "dist/index.html"
    OUTPUT_README := "dist/README.md" }

/-- Lines 22-27: the REPLACEMENTS object, as the ordered list of
(old literal, new literal) pairs that Object.entries yields
(insertion order).  Texts are modeled as lists of characters. -/
def REPLACEMENTS : List (List Char × List Char) :=
  [ ("JORGE MEDINA GONZALEZ".data, "EDUARDO ROSALES PAZ".data),
    ("MEGJ640107QSA".data, "ROPE6505115EA".data),
    ("MEGJ640107HDFDNR07".data, "ROPE650511HDFSZD07".data),
    ("facturas.jmg@outlook.com".data, "tiskamx@outlook.com".data) ]

/-!
Line 38-41: `updatedContent.replace(new RegExp(escaped, 'g'), newVal)`.
The escaping on line 39 (`old.replace(/[.*+?^${}()|[\]\\]/g, '\\$&')`)
escapes every regex metacharacter of the old literal, so the regex
matches exactly the literal `old`.  A JavaScript global regex replace
scans the subject left to right, replaces each non-overlapping leftmost
match, and resumes after the replaced match (inserted text is not
rescanned).  `replaceFuel` implements exactly that scan; the fuel
argument only makes the recursion structural, with fuel = length of the
subject it never runs out (each step consumes at least one character).
-/

/-- Fuel-indexed left-to-right scan performing global literal replacement. -/
def replaceFuel (old new : List Char) : Nat → List Char → List Char
  | _, [] => []
  | 0, s => s
  | Nat.succ fuel, c :: rest =>
    if old ≠ [] ∧ old <+: c :: rest then
      new ++ replaceFuel old new fuel (List.drop (old.length - 1) rest)
    else
      c :: replaceFuel old new fuel rest

/-- Lines 38-41: global literal replacement of `old` by `new`
(the escaped-regex global replace of the source). -/
def replaceAllLit (old new s : List Char) : List Char :=
  replaceFuel old new s.length s

/-- Lines 37-42: the Object.entries(REPLACEMENTS).forEach loop of
readAndReplaceXML, applied to already-read file content (the fs read on
line 34 is modeled by the content argument). -/
def applyReplacements (repls : List (List Char × List Char)) (s : List Char) : List Char :=
  repls.foldl (fun acc p => replaceAllLit p.1 p.2 acc) s

/-- Line 75-77: `personaMoral.claveTramite.replace(old, new)` — a
JavaScript String.replace with a string pattern replaces only the first
occurrence.  Structural recursion; the `old ≠ []` guard matches the fact
that the concrete pattern used by the script is nonempty. -/
def replaceFirst (old new : List Char) : List Char → List Char
  | [] => []
  | c :: rest =>
    if old ≠ [] ∧ old <+: c :: rest then
      new ++ List.drop old.length (c :: rest)
    else
      c :: replaceFirst old new rest

/-- String-valued wrapper for `replaceFirst`. -/
def replaceFirstS (old new s : String) : String :=
  String.mk (replaceFirst old.data new.data s.data)

/-! ## The parsed document tree

fast-xml-parser (options of lines 53-57: ignoreAttributes false, prefix
`@_`, text node `#text`) turns the contract into a nested object.  The
fields below are the ones the script reads or writes.  A tag occurring
once parses to a single object, a repeated tag to an array — captured by
the two-constructor shapes below.  An absent optional field is `none`. -/

structure Domicilio where
  calle : String
  numeroExterior : String
  colonia : String
  cp : String
  localidad : String
  entidadFederativa : String
  pais : String
deriving DecidableEq

structure PersonaMoral where
  nombreMoral : String
  nombreRepresentanteLegal : String
  claveTramite : String
  folioTramite : String
  correoElectronico : String
  fechaConstitucion : String
  claveLada : String
  telefono : String
  actividadPrincipal : String
  valorAccion : String
  capitalSocial : String
  duracion : String
  domicilio : Domicilio
deriving DecidableEq

structure Accionista where
  rfc : String
  curp : String
  nombre : String
  apellidoPaterno : String
  apellidoMaterno : String
  nacionalidad : String
  numeroAccionesFijas : String
  numeroAccionesVariables : String
  esRepresentanteLegal : String
deriving DecidableEq

structure Accionistas where
  accionista : Accionista
deriving DecidableEq

/-- One parsed Signature element: its `@_xmlns` attribute (if present)
and the rest of its content, abstracted to a string. -/
structure SigNode where
  xmlns : Option String
  payload : String
deriving DecidableEq

/-- Shape of the Signature field under the root: a tag occurring once
parses to a single node, repeated tags to an array of nodes. -/
inductive SigField where
  | single : SigNode → SigField
  | seq : List SigNode → SigField
deriving DecidableEq

structure Documento where
  descripcion : String
  uri : String
deriving DecidableEq

/-- Shape of documentos.documento: one occurrence parses to a single
object, several occurrences to an array. -/
inductive DocShape where
  | single : Documento → DocShape
  | seq : List Documento → DocShape
deriving DecidableEq

structure Documentos where
  documento : DocShape
deriving DecidableEq

structure Informacion where
  tipoDocumento : String
deriving DecidableEq

/-- The root object `xmlObj.contratoSocial`. -/
structure ContratoSocial where
  personaMoral : PersonaMoral
  accionistas : Accionistas
  informacion : Informacion
  documentos : Option Documentos
  Signature : Option SigField
deriving DecidableEq

/-- In JavaScript every object and every array is truthy; a parsed
Signature subtree is an object (single) or an array (seq), so the
truthiness test of line 62 is always true on a present value. -/
def jsTruthySig : SigField → Bool
  | SigField.single _ => true
  | SigField.seq _ => true

/-- Line 68: keep an array entry iff `!item['@_xmlns']?.includes('xmldsig')`
(an entry without the attribute is kept; `!item ||` only concerns falsy
entries, which parsed signature arrays of the expected schema do not
contain). -/
def sigKeep (n : SigNode) : Bool :=
  match n.xmlns with
  | none => true
  | some u => ! (decide ("xmldsig".data <:+: u.data))

/-- Lines 61-70 of parseAndPatchXML: first
`if (xmlObj.contratoSocial.Signature) delete xmlObj.contratoSocial.Signature;`
then
`if (Array.isArray(xmlObj.contratoSocial.Signature)) { ... filter ... }`.
The second test runs on the field as left by the first statement. -/
def patchSignature (sig : Option SigField) : Option SigField :=
  let s1 : Option SigField :=
    match sig with
    | some v => if jsTruthySig v then none else some v
    | none => none
  match s1 with
  | some (SigField.seq l) => some (SigField.seq (l.filter sigKeep))
  | s => s

/-- Lines 61-87 of parseAndPatchXML, acting on the already-parsed root
object (the fast-xml-parser call of line 59 is third-party; its result
is this function's argument). -/
def patchParsedXML (x : ContratoSocial) : ContratoSocial :=
  let pm := x.personaMoral
  let a := x.accionistas.accionista
  { x with
    Signature := patchSignature x.Signature
    personaMoral :=
      { pm with
        nombreRepresentanteLegal := "EDUARDO ROSALES PAZ"
        claveTramite := replaceFirstS "MEGJ640107QSA" "ROPE6505115EA" pm.claveTramite }
    accionistas :=
      { accionista :=
        { a with
          rfc := "ROPE6505115EA"
          curp := "ROPE650511HDFSZD07"
          nombre := "EDUARDO"
          apellidoPaterno := "ROSALES"
          apellidoMaterno := "PAZ" } } }

/-- Lines 95-105: XMLBuilder re-renders the object, emitting one
top-level element per key present on the root object, in insertion
order.  The element content is not needed by any claim, so the
serialization is tracked at the level of the emitted top-level tags. -/
def serializeTopLevel (x : ContratoSocial) : List String :=
  ["personaMoral", "accionistas", "informacion"]
  ++ (match x.documentos with | some _ => ["documentos"] | none => [])
  ++ (match x.Signature with | some _ => ["Signature"] | none => [])

/-- Helper: the patch always erases the Signature field (once deleted by
the truthiness branch, the Array.isArray branch sees undefined). -/
theorem patchSignature_eq_none (sig : Option SigField) : patchSignature sig = none := by
  cases sig with
  | none => rfl
  | some v => cases v <;> rfl

/-- C1: after parseAndPatchXML no Signature subtree remains under the
root — whatever the input shape (absent, single node, or sequence) —
and the serialized output emits no Signature element. -/
theorem c1_no_signature_after_patch (x : ContratoSocial) :
    (patchParsedXML x).Signature = none ∧
    "Signature" ∉ serializeTopLevel (patchParsedXML x) := by
  have hsig : (patchParsedXML x).Signature = none := patchSignature_eq_none x.Signature
  refine ⟨hsig, ?_⟩
  unfold serializeTopLevel
  rw [hsig]
  cases hx : (patchParsedXML x).documentos <;> simp

/-- A genuine XML-DSig signature entry (its namespace contains the
marker). -/
def sigDsig : SigNode :=
  { xmlns := some "http://www.w3.org/2000/09/xmldsig#", payload := "sig-content" }

/-- An unrelated entry of a Signature sequence (namespace without the
marker). -/
def sigOther : SigNode :=
  { xmlns := some "http://example.com/other-ns", payload := "other-content" }

def exDomicilio : Domicilio :=
  { calle := "AV CENTRAL", numeroExterior := "12", colonia := "CENTRO",
    cp := "06000", localidad := "CDMX", entidadFederativa := "CIUDAD DE MEXICO",
    pais := "MEXICO" }

def exPersonaMoral : PersonaMoral :=
  { nombreMoral := "TISKA SAS DE CV"
    nombreRepresentanteLegal := "JORGE MEDINA GONZALEZ"
    claveTramite := "A1-MEGJ640107QSA-77"
    folioTramite := "585748"
    correoElectronico := "facturas.jmg@outlook.com"
    fechaConstitucion := "2023-03-01"
    claveLada := "55"
    telefono := "55512345"
    actividadPrincipal := "COMERCIO"
    valorAccion := "1"
    capitalSocial := "10000"
    duracion := "99"
    domicilio := exDomicilio }

def exAccionista : Accionista :=
  { rfc := "MEGJ640107QSA"
    curp := "MEGJ640107HDFDNR07"
    nombre := "JORGE"
    apellidoPaterno := "MEDINA"
    apellidoMaterno := "GONZALEZ"
    nacionalidad := "MEXICANA"
    numeroAccionesFijas := "100"
    numeroAccionesVariables := "0"
    esRepresentanteLegal := "Si" }

/-- A well-formed root object with no documentos and no Signature. -/
def exTree : ContratoSocial :=
  { personaMoral := exPersonaMoral
    accionistas := { accionista := exAccionista }
    informacion := { tipoDocumento := "CONSTITUCION" }
    documentos := none
    Signature := none }

/-- Input whose Signature field is a sequence holding one genuine
signature and one unrelated entry. -/
def exSigSeqTree : ContratoSocial :=
  { exTree with Signature := some (SigField.seq [sigDsig, sigOther]) }

/-- C2 counterexample: on a Signature sequence holding an unrelated
entry (no xmldsig marker; the filter of line 68 would keep it), the
patch nevertheless deletes the whole field: the unrelated entry is not
kept, because the `delete` of line 63 fires on any (truthy) array and
the Array.isArray filter branch is unreachable. -/
theorem c2_counterexample :
    exSigSeqTree.Signature = some (SigField.seq [sigDsig, sigOther]) ∧
    sigKeep sigOther = true ∧
    (patchParsedXML exSigSeqTree).Signature = none := by
  refine ⟨rfl, by decide, ?_⟩
  exact patchSignature_eq_none exSigSeqTree.Signature

/-- C2 amended: deletion is always whole-field.  Whatever the Signature
field holds (absent, single node, or sequence — with or without
unrelated entries), lines 61-70 leave the field absent; the
sequence-filtering branch never runs, so no entry of a sequence is ever
kept. -/
theorem c2_amended (sig : Option SigField) :
    patchSignature sig = none :=
  patchSignature_eq_none sig

/-- C10: the patch overwrites the principal-holder identity fields and
the representative-name field with fixed constants, so the patched
values of any two inputs agree — these outputs carry no information
from the original values. -/
theorem c10_noninterference (x1 x2 : ContratoSocial) :
    (patchParsedXML x1).accionistas.accionista.rfc
      = (patchParsedXML x2).accionistas.accionista.rfc ∧
    (patchParsedXML x1).accionistas.accionista.curp
      = (patchParsedXML x2).accionistas.accionista.curp ∧
    (patchParsedXML x1).accionistas.accionista.nombre
      = (patchParsedXML x2).accionistas.accionista.nombre ∧
    (patchParsedXML x1).accionistas.accionista.apellidoPaterno
      = (patchParsedXML x2).accionistas.accionista.apellidoPaterno ∧
    (patchParsedXML x1).accionistas.accionista.apellidoMaterno
      = (patchParsedXML x2).accionistas.accionista.apellidoMaterno ∧
    (patchParsedXML x1).personaMoral.nombreRepresentanteLegal
      = (patchParsedXML x2).personaMoral.nombreRepresentanteLegal := by
  refine ⟨rfl, rfl, rfl, rfl, rfl, rfl⟩

/-! ## Properties of the global literal replacement (claim C3)

Small structural facts about list prefixes, suffixes and factors,
followed by the behaviour of `replaceAllLit`. -/

theorem pre_to_inf {l₁ l₂ : List Char} (h : l₁ <+: l₂) : l₁ <:+: l₂ := by
  obtain ⟨t, ht⟩ := h
  exact ⟨[], t, by simpa using ht⟩

theorem inf_cons_of_inf (a : Char) {l m : List Char} (h : l <:+: m) : l <:+: a :: m := by
  obtain ⟨s, t, hst⟩ := h
  exact ⟨a :: s, t, by simp [hst]⟩

theorem suf_cons_of_suf (a : Char) {l m : List Char} (h : l <:+ m) : l <:+ a :: m := by
  obtain ⟨p, hp⟩ := h
  exact ⟨a :: p, by simp [hp]⟩

theorem mem_of_suf {l m : List Char} {c : Char} (h : l <:+ m) (hc : c ∈ l) : c ∈ m := by
  obtain ⟨p, rfl⟩ := h
  exact List.mem_append.mpr (Or.inr hc)

theorem mem_of_inf {l m : List Char} {c : Char} (h : l <:+: m) (hc : c ∈ l) : c ∈ m := by
  obtain ⟨s, t, rfl⟩ := h
  exact List.mem_append.mpr (Or.inl (List.mem_append.mpr (Or.inr hc)))

/-- A prefix of an append is a prefix of the first part, or extends it. -/
theorem pre_split {l x y : List Char} (h : l <+: x ++ y) :
    l <+: x ∨ (x <+: l ∧ List.drop x.length l <+: y) := by
  induction x generalizing l with
  | nil => exact Or.inr ⟨⟨l, rfl⟩, by simpa using h⟩
  | cons a x' ih =>
    cases l with
    | nil => exact Or.inl ⟨a :: x', rfl⟩
    | cons b l' =>
      rw [List.cons_append] at h
      obtain ⟨hba, h'⟩ := List.cons_prefix_cons.mp h
      rcases ih h' with h1 | ⟨h2, h3⟩
      · exact Or.inl (List.cons_prefix_cons.mpr ⟨hba, h1⟩)
      · refine Or.inr ⟨List.cons_prefix_cons.mpr ⟨hba.symm, h2⟩, ?_⟩
        simpa using h3

/-- A factor of a cons is a prefix of it or a factor of the tail. -/
theorem inf_cons_split {l : List Char} {a : Char} {m : List Char} (h : l <:+: a :: m) :
    l <+: a :: m ∨ l <:+: m := by
  obtain ⟨s, t, hst⟩ := h
  cases s with
  | nil => exact Or.inl ⟨t, by simpa using hst⟩
  | cons c s' =>
    rw [List.cons_append, List.cons_append] at hst
    injection hst with _ h2
    exact Or.inr ⟨s', t, h2⟩

/-- A factor of an append lies in the first part, in the second part, or
straddles the seam (nonempty suffix of the first, nonempty prefix of the
second). -/
theorem inf_append_split {l x y : List Char} (h : l <:+: x ++ y) :
    l <:+: x ∨ l <:+: y ∨
      ∃ t u, l = t ++ u ∧ t ≠ [] ∧ u ≠ [] ∧ t <:+ x ∧ u <+: y := by
  induction x with
  | nil => exact Or.inr (Or.inl (by simpa using h))
  | cons a x' ih =>
    rw [List.cons_append] at h
    rcases inf_cons_split h with hp | hi
    · have hp' : l <+: (a :: x') ++ y := by simpa [List.cons_append] using hp
      rcases pre_split hp' with h1 | ⟨h2, h3⟩
      · exact Or.inl (pre_to_inf h1)
      · obtain ⟨u, hu⟩ := h2
        by_cases hun : u = []
        · subst hun
          left
          exact pre_to_inf ⟨[], by rw [← hu]; simp⟩
        · right; right
          refine ⟨a :: x', u, hu.symm, List.cons_ne_nil a x', hun, ⟨[], rfl⟩, ?_⟩
          rw [← hu, List.drop_left] at h3
          exact h3
    · rcases ih hi with h1 | h2 | ⟨t, u, heq, htne, hune, hts, hup⟩
      · exact Or.inl (inf_cons_of_inf a h1)
      · exact Or.inr (Or.inl h2)
      · exact Or.inr (Or.inr ⟨t, u, heq, htne, hune, suf_cons_of_suf a hts, hup⟩)

/-- Fuel irrelevance: with enough fuel the scan result does not depend
on the exact fuel. -/
theorem replaceFuel_congr (old new : List Char) :
    ∀ (f g : Nat) (s : List Char), s.length ≤ f → s.length ≤ g →
      replaceFuel old new f s = replaceFuel old new g s := by
  intro f
  induction f with
  | zero =>
    intro g s hf _
    have : s = [] := List.length_eq_zero.mp (Nat.le_zero.mp hf)
    subst this
    cases g <;> rfl
  | succ f ih =>
    intro g s hf hg
    cases s with
    | nil => cases g <;> rfl
    | cons c rest =>
      cases g with
      | zero => simp at hg
      | succ g =>
        have hf' : rest.length ≤ f := by
          simp only [List.length_cons] at hf; omega
        have hg' : rest.length ≤ g := by
          simp only [List.length_cons] at hg; omega
        by_cases hcond : old ≠ [] ∧ old <+: c :: rest
        · simp only [replaceFuel, if_pos hcond]
          have hd : (List.drop (old.length - 1) rest).length ≤ rest.length := by
            simp [List.length_drop]
          exact congrArg (new ++ ·) (ih g _ (le_trans hd hf') (le_trans hd hg'))
        · simp only [replaceFuel, if_neg hcond]
          exact congrArg (c :: ·) (ih g rest hf' hg')

theorem replaceAllLit_nil (old new : List Char) : replaceAllLit old new [] = [] := rfl

theorem replaceAllLit_cons_pos (old new : List Char) (c : Char) (rest : List Char)
    (h : old ≠ [] ∧ old <+: c :: rest) :
    replaceAllLit old new (c :: rest)
      = new ++ replaceAllLit old new (List.drop old.length (c :: rest)) := by
  obtain ⟨o, os, rfl⟩ : ∃ o os, old = o :: os := by
    cases old with
    | nil => exact absurd rfl h.1
    | cons o os => exact ⟨o, os, rfl⟩
  unfold replaceAllLit
  simp only [List.length_cons, replaceFuel, if_pos h]
  have hdrop : List.drop (os.length + 1) (c :: rest)
      = List.drop (os.length + 1 - 1) rest := by
    simp [List.drop_succ_cons]
  rw [hdrop]
  refine congrArg (new ++ ·) (replaceFuel_congr _ _ _ _ _ ?_ le_rfl)
  simp [List.length_drop]

theorem replaceAllLit_cons_neg (old new : List Char) (c : Char) (rest : List Char)
    (h : ¬ (old ≠ [] ∧ old <+: c :: rest)) :
    replaceAllLit old new (c :: rest) = c :: replaceAllLit old new rest := by
  unfold replaceAllLit
  simp only [List.length_cons, replaceFuel, if_neg h]

/-- Literal matching: a text with no occurrence of the old literal
passes through the substitution unchanged (in particular, regex
metacharacters of the literal never act as wildcards). -/
theorem replace_eq_of_no_occurrence (old new : List Char) :
    ∀ s, ¬ old <:+: s → replaceAllLit old new s = s := by
  intro s
  induction s with
  | nil => intro _; rfl
  | cons c rest ih =>
    intro h
    have hc : ¬ (old ≠ [] ∧ old <+: c :: rest) := by
      rintro ⟨_, h2⟩
      exact h (pre_to_inf h2)
    rw [replaceAllLit_cons_neg _ _ _ _ hc, ih (fun hi => h (inf_cons_of_inf c hi))]

/-- If a nonempty proper tail of the old literal is a prefix of the scan
output, then it already was a prefix of the input (it cannot straddle an
inserted replacement, by the boundary hypotheses). -/
theorem drop_pre_replace (old new : List Char)
    (hC : ∀ k, k < old.length → 0 < k →
      ¬ (List.drop k old <+: new) ∧ ¬ (new <+: List.drop k old)) :
    ∀ (n : Nat) (s : List Char), s.length ≤ n → ∀ k, k < old.length → 0 < k →
      List.drop k old <+: replaceAllLit old new s → List.drop k old <+: s := by
  intro n
  induction n with
  | zero =>
    intro s hs k hk _ hp
    have : s = [] := List.length_eq_zero.mp (Nat.le_zero.mp hs)
    subst this
    rw [replaceAllLit_nil] at hp
    obtain ⟨t, ht⟩ := hp
    have h0 : List.drop k old = [] := (List.append_eq_nil.mp ht).1
    have := congrArg List.length h0
    simp [List.length_drop] at this
    omega
  | succ n ih =>
    intro s hs k hk hk0 hp
    cases s with
    | nil =>
      rw [replaceAllLit_nil] at hp
      obtain ⟨t, ht⟩ := hp
      have h0 : List.drop k old = [] := (List.append_eq_nil.mp ht).1
      have := congrArg List.length h0
      simp [List.length_drop] at this
      omega
    | cons c rest =>
      have hs' : rest.length ≤ n := by
        simp only [List.length_cons] at hs; omega
      by_cases hcond : old ≠ [] ∧ old <+: c :: rest
      · rw [replaceAllLit_cons_pos _ _ _ _ hcond] at hp
        rcases pre_split hp with h1 | ⟨h2, _⟩
        · exact absurd h1 (hC k hk hk0).1
        · exact absurd h2 (hC k hk hk0).2
      · rw [replaceAllLit_cons_neg _ _ _ _ hcond] at hp
        have hkd : List.drop k old = old[k] :: List.drop (k + 1) old :=
          List.drop_eq_getElem_cons hk
        rw [hkd] at hp
        obtain ⟨hck, hp'⟩ := List.cons_prefix_cons.mp hp
        by_cases hk1 : k + 1 < old.length
        · have hrec := ih rest hs' (k + 1) hk1 (Nat.succ_pos k) hp'
          rw [hkd, hck]
          exact List.cons_prefix_cons.mpr ⟨rfl, hrec⟩
        · have hnil : List.drop (k + 1) old = [] := List.drop_eq_nil_of_le (by omega)
          rw [hkd, hck, hnil]
          exact List.cons_prefix_cons.mpr ⟨rfl, ⟨rest, rfl⟩⟩

/-- Completeness of the global replacement: under the boundary
hypotheses (the head of the old literal does not occur in the new value,
and no proper tail of the old literal aligns with the new value), the
output contains no occurrence of the old literal at all — every
occurrence, first and subsequent, has been replaced. -/
theorem no_occurrence_replaceAllLit (old new : List Char)
    (hA : old ≠ [])
    (hB : ∀ c ∈ List.take 1 old, c ∉ new)
    (hC : ∀ k, k < old.length → 0 < k →
      ¬ (List.drop k old <+: new) ∧ ¬ (new <+: List.drop k old)) :
    ∀ s, ¬ old <:+: replaceAllLit old new s := by
  obtain ⟨o, os, rfl⟩ : ∃ o os, old = o :: os := by
    cases old with
    | nil => exact absurd rfl hA
    | cons o os => exact ⟨o, os, rfl⟩
  have hBo : o ∉ new := hB o (by simp)
  suffices h : ∀ (n : Nat) (s : List Char), s.length ≤ n →
      ¬ (o :: os) <:+: replaceAllLit (o :: os) new s by
    intro s
    exact h s.length s le_rfl
  intro n
  induction n with
  | zero =>
    intro s hs hinf
    have : s = [] := List.length_eq_zero.mp (Nat.le_zero.mp hs)
    subst this
    rw [replaceAllLit_nil] at hinf
    obtain ⟨p, t, hpt⟩ := hinf
    simp at hpt
  | succ n ih =>
    intro s hs hinf
    cases s with
    | nil =>
      rw [replaceAllLit_nil] at hinf
      obtain ⟨p, t, hpt⟩ := hinf
      simp at hpt
    | cons c rest =>
      have hs' : rest.length ≤ n := by
        simp only [List.length_cons] at hs; omega
      by_cases hcond : (o :: os) ≠ [] ∧ (o :: os) <+: c :: rest
      · rw [replaceAllLit_cons_pos _ _ _ _ hcond] at hinf
        rcases inf_append_split hinf with h1 | h2 | ⟨t, u, heq, htne, _, hts, _⟩
        · exact hBo (mem_of_inf h1 (List.mem_cons_self o os))
        · have hlen : (List.drop (o :: os).length (c :: rest)).length ≤ n := by
            simp only [List.length_drop, List.length_cons]
            omega
          exact ih _ hlen h2
        · cases t with
          | nil => exact htne rfl
          | cons t0 t' =>
            rw [List.cons_append] at heq
            injection heq with h1 _
            exact hBo (mem_of_suf hts (h1 ▸ List.mem_cons_self t0 t'))
      · rw [replaceAllLit_cons_neg _ _ _ _ hcond] at hinf
        rcases inf_cons_split hinf with hp | hi
        · obtain ⟨hoc, hos⟩ := List.cons_prefix_cons.mp hp
          by_cases h1 : 1 < (o :: os).length
          · have hrec := drop_pre_replace (o :: os) new hC rest.length rest le_rfl 1 h1
              Nat.one_pos hos
            exact hcond ⟨List.cons_ne_nil o os, List.cons_prefix_cons.mpr ⟨hoc, hrec⟩⟩
          · have hosnil : os = [] := by
              simp only [List.length_cons] at h1
              exact List.length_eq_zero.mp (by omega)
            subst hosnil
            exact hcond ⟨List.cons_ne_nil o [], List.cons_prefix_cons.mpr ⟨hoc, ⟨rest, rfl⟩⟩⟩
        · exact ih rest hs' hi

/-- Every occurrence is replaced with the new value: if the old literal
occurs right after a prefix `a` that contains no occurrence reaching
into it, the replacement rewrites that occurrence and continues with the
remainder. -/
theorem replace_append_occ (old new : List Char) (hA : old ≠ []) :
    ∀ a b, ¬ old <:+: (a ++ List.take (old.length - 1) old) →
      replaceAllLit old new (a ++ old ++ b) = a ++ (new ++ replaceAllLit old new b) := by
  intro a
  induction a with
  | nil =>
    intro b _
    obtain ⟨o, os, rfl⟩ : ∃ o os, old = o :: os := by
      cases old with
      | nil => exact absurd rfl hA
      | cons o os => exact ⟨o, os, rfl⟩
    have hcons : ([] : List Char) ++ (o :: os) ++ b = o :: (os ++ b) := by simp
    rw [hcons]
    have hcond : (o :: os) ≠ [] ∧ (o :: os) <+: o :: (os ++ b) :=
      ⟨List.cons_ne_nil o os, List.cons_prefix_cons.mpr ⟨rfl, ⟨b, rfl⟩⟩⟩
    rw [replaceAllLit_cons_pos _ _ _ _ hcond]
    have hdrop : List.drop (o :: os).length (o :: (os ++ b)) = b := by
      simp [List.drop_succ_cons, List.drop_left]
    rw [hdrop]
    simp
  | cons c a' ih =>
    intro b hno
    have hsplit : (c :: a') ++ old ++ b = c :: (a' ++ old ++ b) := by simp
    rw [hsplit]
    have hnotpre : ¬ (old ≠ [] ∧ old <+: c :: (a' ++ old ++ b)) := by
      rintro ⟨_, hpre⟩
      apply hno
      have hpre2 : (c :: a') ++ List.take (old.length - 1) old
          <+: c :: (a' ++ old ++ b) := by
        refine ⟨List.drop (old.length - 1) old ++ b, ?_⟩
        simp only [List.cons_append, List.append_assoc, List.cons.injEq, true_and]
        rw [← List.append_assoc (List.take (old.length - 1) old)
          (List.drop (old.length - 1) old) b, List.take_append_drop]
      have hlen : old.length ≤ ((c :: a') ++ List.take (old.length - 1) old).length := by
        rw [List.length_append, List.length_cons, List.length_take,
          Nat.min_eq_left (Nat.sub_le _ _)]
        have hop : 0 < old.length := List.length_pos.mpr hA
        omega
      exact pre_to_inf (List.prefix_of_prefix_length_le hpre hpre2 hlen)
    rw [replaceAllLit_cons_neg _ _ _ _ hnotpre]
    have hno' : ¬ old <:+: (a' ++ List.take (old.length - 1) old) := by
      intro hi
      exact hno (by simpa [List.cons_append] using inf_cons_of_inf c hi)
    rw [ih b hno']
    simp

/-- C3: for every configured replacement pair and every input text, the
substitution pass (escaped-regex global replace) behaves as exact,
case-sensitive, literal global replacement: (i) no occurrence of the old
literal survives in the output, (ii) a text without the literal is left
unchanged (metacharacters such as the dot of the e-mail literal never
act as wildcards), and (iii) each occurrence is rewritten to the new
value in place, with the scan continuing on the remainder. -/
theorem c3_text_substitution (old new : List Char)
    (hmem : (old, new) ∈ REPLACEMENTS) :
    (∀ s, ¬ old <:+: replaceAllLit old new s) ∧
    (∀ s, ¬ old <:+: s → replaceAllLit old new s = s) ∧
    (∀ a b, ¬ old <:+: (a ++ List.take (old.length - 1) old) →
      replaceAllLit old new (a ++ old ++ b) = a ++ (new ++ replaceAllLit old new b)) := by
  simp only [REPLACEMENTS, List.mem_cons, List.not_mem_nil, or_false, Prod.mk.injEq] at hmem
  rcases hmem with ⟨rfl, rfl⟩ | ⟨rfl, rfl⟩ | ⟨rfl, rfl⟩ | ⟨rfl, rfl⟩ <;>
    exact ⟨no_occurrence_replaceAllLit _ _ (by decide) (by decide) (by decide),
      replace_eq_of_no_occurrence _ _,
      replace_append_occ _ _ (by decide)⟩

/-- C3 witness: the RFC literal occurring twice in a concrete text is
replaced at its first occurrence with the scan continuing behind it
(conjunct (iii) of the claim theorem at a concrete input). -/
theorem c3_witness :
    replaceAllLit "MEGJ640107QSA".data "ROPE6505115EA".data
        ("x".data ++ "MEGJ640107QSA".data ++ "yMEGJ640107QSAz".data)
      = "x".data ++ ("ROPE6505115EA".data
          ++ replaceAllLit "MEGJ640107QSA".data "ROPE6505115EA".data "yMEGJ640107QSAz".data) :=
  (c3_text_substitution _ _ (by decide)).2.2 _ _ (by decide)

/-! ## QR generation, report rendering and the orchestrator -/

/-- Lines 111-129: generateQRCode awaits QRCode.toDataURL (third-party;
its outcome is the argument) and on rejection logs the error and returns
null instead of rethrowing. -/
def generateQRCode (toDataURLResult : Except String String) : Option String :=
  match toDataURLResult with
  | Except.ok url => some url
  | Except.error _ => none

/-- One rendered document card of the report (lines 652-670): the card
shows the entry's description and its URI. -/
structure DocCard where
  descripcion : String
  uri : String
deriving DecidableEq

/-- The QR section of the report (line 704): an img with the data URL if
`qrDataURL` is truthy, otherwise the visible placeholder box
("QR Code no disponible"). -/
inductive QRView where
  | image : String → QRView
  | placeholder : QRView
deriving DecidableEq

/-- The data projected into the HTML template by buildHTML; only the
parts the claims are about are tracked (document cards, fallback notice,
QR section, displayed target URL). -/
structure Html where
  title : String
  representanteLegal : String
  docCards : List DocCard
  noDocsNotice : Bool
  qr : QRView
  displayedURL : String
deriving DecidableEq

/-- Lines 652-670: the documents section.
`data.documentos ? data.documentos.documento.map(...) : fallback`.
When documentos is absent (falsy) the fallback notice is rendered with
no cards.  When present, `.map` is called on `documento`: an array maps
to one card per entry; a single parsed object has no `.map` method and
the template throws a TypeError. -/
def renderDocCards : Option Documentos → Except String (List DocCard × Bool)
  | none => Except.ok ([], true)
  | some ds =>
    match ds.documento with
    | DocShape.seq l =>
        Except.ok (l.map (fun d => { descripcion := d.descripcion, uri := d.uri }), false)
    | DocShape.single _ =>
        Except.error "TypeError: data.documentos.documento.map is not a function"

/-- Lines 137-891: buildHTML projects the patched tree into the report.
A TypeError raised while evaluating the template (documents section)
propagates to the caller; otherwise the report is produced, with the
QR section showing the image for a truthy data URL and the placeholder
for null (or an empty string, both falsy). -/
def buildHTML (x : ContratoSocial) (qrDataURL : Option String) : Except String Html :=
  match renderDocCards x.documentos with
  | Except.error e => Except.error e
  | Except.ok (cards, notice) =>
      Except.ok
        { title := x.personaMoral.nombreMoral
          representanteLegal := x.personaMoral.nombreRepresentanteLegal
          docCards := cards
          noDocsNotice := notice
          qr :=
            match qrDataURL with
            | some u => if u.isEmpty then QRView.placeholder else QRView.image u
            | none => QRView.placeholder
          displayedURL := CONFIG.QR_TARGET_URL }

/-- The script consults no process environment variable (its only
process API use is process.exit on line 1002): the QR target URL passed
to QRCode.toDataURL (line 113) and displayed in the report (line 707)
is the CONFIG constant, whatever the run's environment holds. -/
def effectiveQRTargetURL (_env : List (String × String)) : String :=
  CONFIG.QR_TARGET_URL

/-- Filesystem operations performed by the orchestrator.  A `writeF` is
an fs.writeFileSync: one atomic whole-content write of the named path. -/
inductive FSOp where
  | readF : String → FSOp
  | mkdirD : String → FSOp
  | writeF : String → FSOp
deriving DecidableEq

/-- Lines 957-1004: the transform orchestrator inside its try/catch.
In order: ensureDistDir (mkdir dist, lines 948-952), readAndReplaceXML
(read of CONFIG.INPUT_FILE, line 34, then the replacement loop),
parseAndPatchXML (the third-party parse outcome is the `parse`
argument), serializeXML + write of OUTPUT_XML (line 977), generateQRCode
(third-party outcome in `qrResult`), buildHTML + write of OUTPUT_HTML
(line 987), write of OUTPUT_README (line 993).  Any exception reaches
the catch (lines 1000-1003), which logs and calls process.exit(1);
writes already performed stay on disk.  Result: (exit code, performed
filesystem operations in order). -/
def transformWith (repls : List (List Char × List Char))
    (parse : String → Except String ContratoSocial)
    (inputContent : String) (qrResult : Except String String) : Nat × List FSOp :=
  match parse (String.mk (applyReplacements repls inputContent.data)) with
  | Except.error _ =>
      (1, [FSOp.mkdirD "dist", FSOp.readF CONFIG.INPUT_FILE])
  | Except.ok tree =>
      match buildHTML (patchParsedXML tree) (generateQRCode qrResult) with
      | Except.error _ =>
          (1, [FSOp.mkdirD "dist", FSOp.readF CONFIG.INPUT_FILE,
               FSOp.writeF CONFIG.OUTPUT_XML])
      | Except.ok _ =>
          (0, [FSOp.mkdirD "dist", FSOp.readF CONFIG.INPUT_FILE,
               FSOp.writeF CONFIG.OUTPUT_XML, FSOp.writeF CONFIG.OUTPUT_HTML,
               FSOp.writeF CONFIG.OUTPUT_README])

/-- The orchestrator with the script's own replacement table. -/
def transform (parse : String → Except String ContratoSocial)
    (inputContent : String) (qrResult : Except String String) : Nat × List FSOp :=
  transformWith REPLACEMENTS parse inputContent qrResult

def exDoc1 : Documento :=
  { descripcion := "Contrato social", uri := "https://example.com/doc1.pdf" }

def exDoc2 : Documento :=
  { descripcion := "Acta constitutiva", uri := "https://example.com/doc2.pdf" }

/-- A tree whose document list parsed as a single object (exactly one
documento element in the input). -/
def exSingleDocTree : ContratoSocial :=
  { exTree with documentos := some { documento := DocShape.single exDoc1 } }

/-- A tree whose document list parsed as an array (two documento
elements in the input). -/
def exSeqDocTree : ContratoSocial :=
  { exTree with documentos := some { documento := DocShape.seq [exDoc1, exDoc2] } }

/-- A tree renders without a TypeError iff its documentos field is
absent or parsed as an array. -/
def docsRenderable (x : ContratoSocial) : Prop :=
  x.documentos = none ∨ ∃ l, x.documentos = some { documento := DocShape.seq l }

theorem buildHTML_ok_of_renderable (x : ContratoSocial) (qr : Option String)
    (h : docsRenderable x) : (buildHTML x qr).isOk = true := by
  rcases h with h | ⟨l, h⟩ <;> simp [buildHTML, renderDocCards, h, Except.isOk, Except.toBool]

/-- C4 counterexample: a document list that is present with exactly one
entry parses as a single object, and rendering fails with a TypeError
(`.map` is not a function) instead of producing one document card. -/
theorem c4_counterexample :
    exSingleDocTree.documentos = some { documento := DocShape.single exDoc1 } ∧
    buildHTML exSingleDocTree (some "data:image/png;base64,QQ==")
      = Except.error "TypeError: data.documentos.documento.map is not a function" := by
  exact ⟨rfl, rfl⟩

/-- C4 amended: when the document list is present as a parsed sequence
of N entries the report holds exactly N document cards, each with that
entry's description and URI; when it is absent, rendering succeeds with
zero cards and the fallback notice; but a document list present with a
single (non-array) entry makes rendering fail. -/
theorem c4_amended (x : ContratoSocial) (qr : Option String) :
    (∀ l, x.documentos = some { documento := DocShape.seq l } →
      (buildHTML x qr).toOption.map Html.docCards
          = some (l.map (fun d => { descripcion := d.descripcion, uri := d.uri })) ∧
      (buildHTML x qr).toOption.map (fun h => h.docCards.length) = some l.length ∧
      (buildHTML x qr).toOption.map Html.noDocsNotice = some false) ∧
    (x.documentos = none →
      (buildHTML x qr).toOption.map Html.docCards = some [] ∧
      (buildHTML x qr).toOption.map Html.noDocsNotice = some true) ∧
    (∀ d, x.documentos = some { documento := DocShape.single d } →
      (buildHTML x qr).isOk = false) := by
  refine ⟨?_, ?_, ?_⟩
  · intro l hl
    simp [buildHTML, renderDocCards, hl, Except.toOption]
  · intro hl
    simp [buildHTML, renderDocCards, hl, Except.toOption]
  · intro d hl
    simp [buildHTML, renderDocCards, hl, Except.isOk, Except.toBool]

/-- C4 witness: the amended claim evaluated at a two-entry sequence, at
an absent document list, and at a single-entry document list. -/
theorem c4_witness :
    ((buildHTML exSeqDocTree none).toOption.map Html.docCards
        = some ([exDoc1, exDoc2].map (fun d => { descripcion := d.descripcion, uri := d.uri })) ∧
      (buildHTML exSeqDocTree none).toOption.map (fun h => h.docCards.length)
        = some ([exDoc1, exDoc2] : List Documento).length ∧
      (buildHTML exSeqDocTree none).toOption.map Html.noDocsNotice = some false) ∧
    ((buildHTML exTree none).toOption.map Html.docCards = some [] ∧
      (buildHTML exTree none).toOption.map Html.noDocsNotice = some true) ∧
    (buildHTML exSingleDocTree none).isOk = false := by
  refine ⟨(c4_amended exSeqDocTree none).1 [exDoc1, exDoc2] rfl,
    (c4_amended exTree none).2.1 rfl,
    (c4_amended exSingleDocTree none).2.2 exDoc1 rfl⟩

/-- C5: when QR generation fails, the generator returns null rather
than raising, report rendering still succeeds with the visible
placeholder in the QR section, and a run whose other stages succeed
exits with code 0. -/
theorem c5_qr_failure_recoverable (err : String) (x : ContratoSocial)
    (hdocs : docsRenderable x) :
    generateQRCode (Except.error err) = none ∧
    (buildHTML x none).isOk = true ∧
    (buildHTML x none).toOption.map Html.qr = some QRView.placeholder ∧
    (∀ (parse : String → Except String ContratoSocial) (input : String),
      parse (String.mk (applyReplacements REPLACEMENTS input.data)) = Except.ok x →
      (transform parse input (Except.error err)).1 = 0) := by
  have hdocs' : docsRenderable (patchParsedXML x) := hdocs
  refine ⟨rfl, buildHTML_ok_of_renderable x none hdocs, ?_, ?_⟩
  · rcases hdocs with h | ⟨l, h⟩ <;> simp [buildHTML, renderDocCards, h, Except.toOption]
  · intro parse input hparse
    unfold transform transformWith
    rw [hparse]
    have hok := buildHTML_ok_of_renderable (patchParsedXML x) (generateQRCode (Except.error err))
      hdocs'
    cases hb : buildHTML (patchParsedXML x) (generateQRCode (Except.error err)) with
    | error e => rw [hb] at hok; simp [Except.isOk, Except.toBool] at hok
    | ok h => simp [hb]

/-- C5 witness: the claim at a concrete renderable tree, a concrete
error, and a stub parse outcome. -/
theorem c5_witness :
    generateQRCode (Except.error "boom") = none ∧
    (buildHTML exTree none).isOk = true ∧
    (buildHTML exTree none).toOption.map Html.qr = some QRView.placeholder ∧
    (transform (fun _ => Except.ok exTree) "input" (Except.error "boom")).1 = 0 := by
  have h := c5_qr_failure_recoverable "boom" exTree (Or.inl rfl)
  exact ⟨h.1, h.2.1, h.2.2.1, h.2.2.2 _ "input" rfl⟩

/-- Overlap of two literals: one contains the other, or a nonempty
proper suffix of one is a prefix of the other (so occurrences in some
text could share characters). -/
def boundaryOverlap (a b : List Char) : Bool :=
  (List.range a.length).any (fun k => decide (0 < k) && decide (List.drop k a <+: b))

def overlapping (a b : List Char) : Bool :=
  decide (a <:+: b) || decide (b <:+: a) || boundaryOverlap a b || boundaryOverlap b a

/-- A replacement configuration with two overlapping old literals. -/
def overlappingRepls : List (List Char × List Char) :=
  [("AA".data, "X".data), ("A".data, "Y".data)]

/-- C6 counterexample: with a configuration whose old literals overlap,
the run still performs its I/O (the input read happens) and completes
with exit code 0 — there is no startup validation and no configuration
error; nothing in transform (lines 957-1004) inspects the REPLACEMENTS
table before I/O. -/
theorem c6_counterexample :
    overlapping "AA".data "A".data = true ∧
    (transformWith overlappingRepls (fun _ => Except.ok exTree) "AAA" (Except.ok "qr")).1 = 0 ∧
    FSOp.readF CONFIG.INPUT_FILE
      ∈ (transformWith overlappingRepls (fun _ => Except.ok exTree) "AAA" (Except.ok "qr")).2 := by
  refine ⟨by decide, by decide, by decide⟩

/-- C6 amended: the program performs no overlap validation — for every
replacement configuration, overlapping or not, the run reads the input
(I/O proceeds, no fail-fast configuration error); the built-in
REPLACEMENTS literals do happen to be pairwise non-overlapping. -/
theorem c6_amended :
    (∀ (repls : List (List Char × List Char))
        (parse : String → Except String ContratoSocial)
        (input : String) (qrResult : Except String String),
      FSOp.readF CONFIG.INPUT_FILE ∈ (transformWith repls parse input qrResult).2) ∧
    List.Pairwise (fun p q => overlapping p.1 q.1 = false) REPLACEMENTS := by
  constructor
  · intro repls parse input qrResult
    unfold transformWith
    split
    · simp
    · split <;> simp
  · decide

/-- C7 counterexample: a run in which serialization and the XML write
succeed and HTML rendering then fails (single-entry document list)
exits 1 but leaves the completely written XML artifact behind — output
is written directly to its final path (fs.writeFileSync on line 977),
not to a temporary path renamed on success. -/
theorem c7_counterexample :
    (transformWith REPLACEMENTS (fun _ => Except.ok exSingleDocTree) "raw" (Except.ok "qr")).1
      = 1 ∧
    FSOp.writeF CONFIG.OUTPUT_XML
      ∈ (transformWith REPLACEMENTS (fun _ => Except.ok exSingleDocTree) "raw"
          (Except.ok "qr")).2 := by
  refine ⟨by decide, by decide⟩

/-- C7 amended: any stage failure still aborts the run with exit code 1
(the claim's first half holds), but artifacts written before the
failing stage remain as complete files: whenever rendering fails after
the XML was serialized and written, the run exits 1 with the full XML
write among its performed operations. -/
theorem c7_amended (parse : String → Except String ContratoSocial) (input : String)
    (qrResult : Except String String) (tree : ContratoSocial)
    (hparse : parse (String.mk (applyReplacements REPLACEMENTS input.data)) = Except.ok tree)
    (hrender : (buildHTML (patchParsedXML tree) (generateQRCode qrResult)).isOk = false) :
    (transformWith REPLACEMENTS parse input qrResult).1 = 1 ∧
    FSOp.writeF CONFIG.OUTPUT_XML ∈ (transformWith REPLACEMENTS parse input qrResult).2 := by
  unfold transformWith
  rw [hparse]
  cases hb : buildHTML (patchParsedXML tree) (generateQRCode qrResult) with
  | error e => simp [hb]
  | ok h => rw [hb] at hrender; simp [Except.isOk, Except.toBool] at hrender

/-- C7 witness: the amended claim at a concrete failing run. -/
theorem c7_witness :
    (transformWith REPLACEMENTS (fun _ => Except.ok exSingleDocTree) "in" (Except.ok "q")).1
      = 1 ∧
    FSOp.writeF CONFIG.OUTPUT_XML
      ∈ (transformWith REPLACEMENTS (fun _ => Except.ok exSingleDocTree) "in"
          (Except.ok "q")).2 :=
  c7_amended _ "in" _ exSingleDocTree rfl (by decide)

/-- C8 counterexample: an environment that supplies a target URL has no
effect — the effective URL is still the CONFIG constant (the script
never reads process.env), and the rendered report displays the CONFIG
URL, not the environment's value. -/
theorem c8_counterexample :
    effectiveQRTargetURL [("QR_TARGET_URL", "https://override.example.com/x")]
        = CONFIG.QR_TARGET_URL ∧
    CONFIG.QR_TARGET_URL ≠ "https://override.example.com/x" ∧
    (buildHTML exTree (some "data:image/png;base64,QQ==")).toOption.map Html.displayedURL
        = some CONFIG.QR_TARGET_URL := by
  exact ⟨rfl, by decide, rfl⟩

/-- C8 amended: the shortcut-code target URL is not overridable by the
process environment; under every environment the effective URL is the
built-in CONFIG.QR_TARGET_URL, and every successfully rendered report
displays that URL. -/
theorem c8_amended (env : List (String × String)) (x : ContratoSocial) (qr : Option String) :
    effectiveQRTargetURL env = CONFIG.QR_TARGET_URL ∧
    ((buildHTML x qr).toOption.map Html.displayedURL = some CONFIG.QR_TARGET_URL ∨
      (buildHTML x qr).isOk = false) := by
  refine ⟨rfl, ?_⟩
  cases h : renderDocCards x.documentos with
  | error e => right; simp [buildHTML, h, Except.isOk, Except.toBool]
  | ok p => left; cases p; simp [buildHTML, h, Except.toOption]

/-- Every filesystem operation of any run lies in this fixed set. -/
theorem transform_ops_subset (repls : List (List Char × List Char))
    (parse : String → Except String ContratoSocial) (input : String)
    (qrResult : Except String String) :
    ∀ op ∈ (transformWith repls parse input qrResult).2,
      op ∈ [FSOp.mkdirD "dist", FSOp.readF CONFIG.INPUT_FILE, FSOp.writeF CONFIG.OUTPUT_XML,
            FSOp.writeF CONFIG.OUTPUT_HTML, FSOp.writeF CONFIG.OUTPUT_README] := by
  intro op hop
  unfold transformWith at hop
  split at hop
  · simp only [List.mem_cons, List.not_mem_nil, or_false] at hop
    rcases hop with rfl | rfl <;> simp
  · split at hop
    · simp only [List.mem_cons, List.not_mem_nil, or_false] at hop
      rcases hop with rfl | rfl | rfl <;> simp
    · simp only [List.mem_cons, List.not_mem_nil, or_false] at hop
      rcases hop with rfl | rfl | rfl | rfl | rfl <;> simp

/-- C9: the input file is only ever read, never written — every read
targets CONFIG.INPUT_FILE and every write targets one of the three
output artifacts, all under the dist/ output directory and distinct
from the input path. -/
theorem c9_frame (parse : String → Except String ContratoSocial) (input : String)
    (qrResult : Except String String) (op : FSOp)
    (hmem : op ∈ (transform parse input qrResult).2) :
    (∀ p, op = FSOp.readF p → p = CONFIG.INPUT_FILE) ∧
    (∀ p, op = FSOp.writeF p →
      (p = CONFIG.OUTPUT_XML ∨ p = CONFIG.OUTPUT_HTML ∨ p = CONFIG.OUTPUT_README) ∧
      p ≠ CONFIG.INPUT_FILE ∧ "dist/".data <+: p.data) := by
  have hall := transform_ops_subset REPLACEMENTS parse input qrResult op hmem
  simp only [List.mem_cons, List.not_mem_nil, or_false] at hall
  rcases hall with rfl | rfl | rfl | rfl | rfl <;>
    refine ⟨fun p hp => ?_, fun p hp => ?_⟩ <;>
    first
      | exact FSOp.noConfusion hp
      | (injection hp with h; exact h.symm)
      | (injection hp with h; subst h; decide)

/-- C9 witness: the frame condition applied to the XML write operation
of a concrete successful run. -/
theorem c9_witness :
    (CONFIG.OUTPUT_XML = CONFIG.OUTPUT_XML ∨ CONFIG.OUTPUT_XML = CONFIG.OUTPUT_HTML ∨
      CONFIG.OUTPUT_XML = CONFIG.OUTPUT_README) ∧
    CONFIG.OUTPUT_XML ≠ CONFIG.INPUT_FILE ∧ "dist/".data <+: CONFIG.OUTPUT_XML.data :=
  (c9_frame (fun _ => Except.ok exTree) "in2" (Except.ok "q") (FSOp.writeF CONFIG.OUTPUT_XML)
    (by decide)).2 CONFIG.OUTPUT_XML rfl
